import Mathlib

/-
  Verification development for the mctokio framing core
  (Minecraft 1.15.2 wire-protocol bridge: VarInt framing, AES-128 CFB8,
  zlib threshold compression, slack-buffer management).

  Shallow embedding conventions:
  * bytes are Nat values (u8 values are < 256; bitwise ops on Nat agree with
    u8 ops on that range),
  * machine integers are Int/Nat with explicit two's-complement casts
    (u32_to_i32, usize_of_i32) where the source casts,
  * buffers (Vec<u8>) are List Nat; in-place writes become list splices,
  * the external zlib compressor/decompressor (flate2) and the AES-128 block
    function (aes crate) are parameters: the embedding never inverts them,
  * the transport is a List Nat of pending bytes (reads consume from the
    front); a sink is a List Nat that emitted bytes are appended to,
  * fallible code returns Except.
-/

set_option maxHeartbeats 1000000
set_option maxRecDepth 8000

namespace Mctokio

/-- Protocol state enumeration (mcproto State): Handshaking, Status, Login, Play. -/
inductive PState where
  | handshaking
  | status
  | login
  | play
deriving DecidableEq, Repr

/-- Packet travel direction (mcproto PacketDirection). -/
inductive PacketDirection where
  | serverBound
  | clientBound
deriving DecidableEq, Repr

/-- Packet id record (mcproto Id): protocol state, direction and numeric id (an i32). -/
structure Id where
  state : PState
  direction : PacketDirection
  id : Int
deriving DecidableEq, Repr

/-- Encode a u32 (a Nat < 2^32, given as its value) as a VarInt byte list:
little-endian 7-bit groups, continuation bit 0x80 on every byte but the last.
Modelled from the spec: the VarInt codec lives in the external mcproto-rs crate
(spec section 4.3). -/
def varint_encode_u32_go : Nat → Nat → List Nat
  | 0, _ => []
  | fuel + 1, v =>
    if v / 128 = 0 then [v % 128]
    else (v % 128 + 128) :: varint_encode_u32_go fuel (v / 128)

/-- Five 7-bit groups cover every u32 (128^5 > 2^32), so the loop runs at most
five times; the fuel only bounds that iteration count. -/
def varint_encode_u32 (v : Nat) : List Nat :=
  varint_encode_u32_go 5 v

/-- Encode an i32 as a VarInt: the source serializes the two's-complement u32
bit pattern of the value. -/
def varint_encode (v : Int) : List Nat :=
  varint_encode_u32 (v % 4294967296).toNat

/-- Decoding loop for a VarInt (modelled from the spec, section 4.3: the decoder
is mcproto-rs VarInt::mc_deserialize): reads little-endian 7-bit groups,
stops on a clear continuation bit, refuses more than 5 bytes, fails at end of
input. Returns the accumulated u32 value (as a Nat) and the remaining bytes. -/
def varint_decode_go : List Nat → Nat → Nat → Option (Nat × List Nat)
  | [], _, _ => none
  | b :: rest, shift, acc =>
    if 5 ≤ shift then none
    else
      let acc' := acc + (b &&& 127) * 128 ^ shift
      if b &&& 128 = 0 then some (acc', rest)
      else varint_decode_go rest (shift + 1) acc'

/-- Decode a VarInt from the front of a byte list. -/
def varint_decode (bytes : List Nat) : Option (Nat × List Nat) :=
  varint_decode_go bytes 0 0

/-- Reinterpret a u32 bit pattern (Nat < 2^32) as an i32 (two's complement). -/
def u32_to_i32 (v : Nat) : Int :=
  if v < 2147483648 then (v : Int) else (v : Int) - 4294967296

/-- The Rust cast `x as usize` applied to an i32 value on a 64-bit target:
sign-extend to 64 bits and reinterpret as unsigned. -/
def usize_of_i32 (v : Int) : Nat :=
  (v % 18446744073709551616).toNat

/-- Overwrite buf[i .. i + data.length) with data (an in-place slice write,
as done by copy_from_slice / SliceSerializer in writer.rs). -/
def writeSlice (buf : List Nat) (i : Nat) (data : List Nat) : List Nat :=
  buf.take i ++ data ++ buf.drop (i + data.length)

/-- writer.rs copy_data_rightwards: shift the bytes in target[start .. stop)
rightwards by shift_amount (memmove semantics); no move when the shift is 0. -/
def copy_data_rightwards (target : List Nat) (start stop shift_amount : Nat) : List Nat :=
  if shift_amount = 0 then target
  else writeSlice target (start + shift_amount) ((target.drop start).take (stop - start))

/-- util.rs get_sized_buf: if the buffer is shorter than needed, reserve, zero the
newly exposed bytes up to the new capacity and set the length to the capacity;
return the buffer and the slice of length exactly needed. The Rust Vec capacity
after reserve is some cap with needed ≤ cap; cap is passed explicitly since the
allocator chooses it. -/
def get_sized_buf (raw_buf : List Nat) (needed : Nat) (cap : Nat) : List Nat × List Nat :=
  if raw_buf.length < needed then
    let grown := raw_buf ++ List.replicate (cap - raw_buf.length) 0
    (grown, grown.take needed)
  else
    (raw_buf, raw_buf.take needed)

/-- get_sized_buf with the minimal capacity (cap = needed): the deterministic
instance used when only the first needed bytes are ever read afterwards. -/
def sizeTo (buf : List Nat) (needed : Nat) : List Nat :=
  (get_sized_buf buf needed needed).1

/-- Cipher state from cfb8.rs MinecraftCipher: the keyed AES-128 block encryption
(a pure function of the key, kept abstract since the aes crate is external) and
the 16-byte iv register. The 16-byte tmp register is pure scratch (it is
overwritten with the iv at the start of every byte step) and is not modelled. -/
structure CipherSt where
  block : List Nat → List Nat
  iv : List Nat

/-- One byte step of cfb8.rs MinecraftCipher::crypt: save iv, encrypt the iv
block, xor the data byte with the first keystream byte, shift the iv register
left one byte and feed the ciphertext byte (the output when encrypting, the
input when decrypting) into its last slot. -/
def crypt_byte (block : List Nat → List Nat) (decrypt : Bool) (iv : List Nat) (orig : Nat) :
    List Nat × Nat :=
  let encIv := block iv
  let updated := orig ^^^ encIv.headD 0
  let fed := if decrypt then orig else updated
  (iv.drop 1 ++ [fed], updated)

/-- cfb8.rs MinecraftCipher::crypt over a whole buffer, byte by byte, returning
the final iv register and the transformed bytes. -/
def crypt (block : List Nat → List Nat) (decrypt : Bool) : List Nat → List Nat → List Nat × List Nat
  | iv, [] => (iv, [])
  | iv, d :: ds =>
    let s := crypt_byte block decrypt iv d
    let r := crypt block decrypt s.1 ds
    (r.1, s.2 :: r.2)

/-- Apply crypt to a cipher state (encrypt when decrypt = false), updating the
iv register in place as the source does. -/
def cipher_crypt (c : CipherSt) (decrypt : Bool) (data : List Nat) : CipherSt × List Nat :=
  let r := crypt c.block decrypt c.iv data
  ({ c with iv := r.1 }, r.2)

/-- Errors surfaced from the bridge control surface (enable_encryption). -/
inductive BridgeErr where
  | invalidKeyMaterial
  | doubleEnableEncryption
deriving DecidableEq, Repr

/-- cfb8.rs MinecraftCipher::new: both iv and key must be exactly 16 bytes
(iv checked first); on success the AES-128 schedule is built from the key.
aes is the external AES-128 keyed block function. -/
def minecraftCipher_new (aes : List Nat → List Nat → List Nat) (key iv : List Nat) :
    Except BridgeErr CipherSt :=
  if iv.length ≠ 16 then .error .invalidKeyMaterial
  else if key.length ≠ 16 then .error .invalidKeyMaterial
  else .ok { block := aes key, iv := iv }

/-- reader.rs / writer.rs enable_encryption (the two bodies are textually
identical): refuse when a cipher is already installed, otherwise install a
fresh cipher. Returns the call result together with the encryption field
afterwards. -/
def enable_encryption (cur : Option CipherSt) (aes : List Nat → List Nat → List Nat)
    (key iv : List Nat) : Except BridgeErr Unit × Option CipherSt :=
  match cur with
  | some c => (.error .doubleEnableEncryption, some c)
  | none =>
    match minecraftCipher_new aes key iv with
    | .ok c => (.ok (), some c)
    | .error e => (.error e, none)

/-- Writer error taxonomy, writer.rs (anyhow messages mapped to tags).
compressLoopStuck models the deflate loop failing to terminate: its BufError
arm cannot grow the buffer (see the C6 theorem), so a compressed frame larger
than the pre-sized buffer leaves the loop without an exit. -/
inductive WriteErr where
  | directionMismatch
  | stateMismatch
  | compressLoopStuck
deriving DecidableEq, Repr

/-- Reader error taxonomy, reader.rs. -/
inductive ReadErr where
  | varIntOverflow
  | unexpectedEof
  | deserializeFailed
  | inflateStuck
deriving DecidableEq, Repr

/-- Tail of writer.rs write_packet_in_buf: serialize the frame length VarInt
into the 5 bytes before start_at, right-shift it so it abuts the frame,
optionally encrypt the emitted slice in place, and return the slice
buf[start_at - len_len .. end_at] together with the cipher state. -/
def emit_frame (enc : Option CipherSt) (buf : List Nat) (start_at end_at : Nat) :
    Except WriteErr (List Nat × Option CipherSt) :=
  let lenBytes := varint_encode ((end_at - start_at : Nat) : Int)
  let len_len := lenBytes.length
  let len_start_at := start_at - 5
  let buf1 := writeSlice buf len_start_at lenBytes
  let buf2 := copy_data_rightwards buf1 len_start_at (len_start_at + len_len) (5 - len_len)
  let new_len_start_at := len_start_at + (5 - len_len)
  let packet_data := (buf2.drop new_len_start_at).take (end_at - new_len_start_at)
  match enc with
  | none => .ok (packet_data, none)
  | some c =>
    let r := cipher_crypt c false packet_data
    .ok (r.2, some r.1)

/-- writer.rs write_packet_in_buf with the body already staged at offset 15
(both write_raw_packet and write_packet stage the body bytes at offset
EXTRA_FREE_SPACE = 15 of the raw buffer before calling it; buffers are modelled
fresh per call). Checks direction then state, serializes the id VarInt into
slot [10, 15) and right-shifts it against the body, then branches on the
compression threshold:
* none: frame is id ++ body;
* below threshold (usize cast of the i32 threshold): a single 0 data-length
  byte precedes id ++ body;
* at or above: deflate(id ++ body) is written at offset 15 of the compress
  buffer (pre-sized to the uncompressed length) and the uncompressed length is
  the data-length VarInt in slot [10, 15). The deflate loop only terminates
  when the whole compressed output fits in the pre-sized buffer, since its
  BufError arm never grows the buffer (see C6);
finally the frame-length VarInt goes immediately before the frame.
deflate is the external flate2 zlib compressor (window_bits 15, fast). -/
def write_packet_in_buf (direction : PacketDirection) (state : PState) (threshold : Option Int)
    (deflate : List Nat → List Nat) (enc : Option CipherSt) (pid : Id) (body : List Nat) :
    Except WriteErr (List Nat × Option CipherSt) :=
  if pid.direction ≠ direction then .error .directionMismatch
  else if pid.state ≠ state then .error .stateMismatch
  else
    let raw_buf0 := writeSlice (sizeTo [] (15 + body.length)) 15 body
    let idBytes := varint_encode pid.id
    let id_len := idBytes.length
    let raw_buf1 := writeSlice raw_buf0 10 idBytes
    let raw_buf := copy_data_rightwards raw_buf1 10 (10 + id_len) (5 - id_len)
    let data_len := id_len + body.length
    let data_start_at := 15 - id_len
    match threshold with
    | none => emit_frame enc raw_buf data_start_at (data_start_at + data_len)
    | some t =>
      if data_len < usize_of_i32 t then
        let data_len_at := data_start_at - 1
        let raw_buf2 := writeSlice raw_buf data_len_at [0]
        emit_frame enc raw_buf2 data_len_at (data_start_at + data_len)
      else
        let src := (raw_buf.drop data_start_at).take data_len
        let compressed := deflate src
        let compress_buf0 := sizeTo [] src.length
        if 15 + compressed.length ≤ compress_buf0.length then
          let compress_buf1 := writeSlice compress_buf0 15 compressed
          let dlBytes := varint_encode ((data_len : Nat) : Int)
          let dl_len := dlBytes.length
          let compress_buf2 := writeSlice compress_buf1 10 dlBytes
          let compress_buf := copy_data_rightwards compress_buf2 10 (10 + dl_len) (5 - dl_len)
          emit_frame enc compress_buf (10 + (5 - dl_len)) (15 + compressed.length)
        else
          .error .compressLoopStuck

/-- write_packet / write_raw_packet at the transport level: on success the
emitted frame is appended to the sink (stream.write_all), on error the sink is
untouched (both guards fire before any transport write). -/
def write_packet_to_sink (direction : PacketDirection) (state : PState) (threshold : Option Int)
    (deflate : List Nat → List Nat) (enc : Option CipherSt) (pid : Id) (body : List Nat)
    (sink : List Nat) : Except WriteErr (Option CipherSt) × List Nat :=
  match write_packet_in_buf direction state threshold deflate enc pid body with
  | .ok r => (.ok r.2, sink ++ r.1)
  | .error e => (.error e, sink)

/-- reader.rs read_one_varint loop body: error out when 5 bytes have already
been collected, return none (clean end of stream) when a read delivers zero
bytes — at any position in the varint —, otherwise decrypt the byte when
encryption is enabled, collect it, and recurse while its continuation bit is
set; on a clear bit run mc_deserialize over the collected bytes. -/
def read_one_varint_go (enc : Option CipherSt) (stream : List Nat) (collected : List Nat) :
    Except ReadErr (Option (Int × List Nat × Option CipherSt)) :=
  if collected.length = 5 then .error .varIntOverflow
  else
    match stream with
    | [] => .ok none
    | b :: rest =>
      let dec : Option CipherSt × Nat :=
        match enc with
        | none => (none, b)
        | some c =>
          let r := cipher_crypt c true [b]
          (some r.1, r.2.headD 0)
      if dec.2 &&& 128 ≠ 0 then read_one_varint_go dec.1 rest (collected ++ [dec.2])
      else
        match varint_decode (collected ++ [dec.2]) with
        | some vr => .ok (some (u32_to_i32 (vr.1 % 4294967296), rest, dec.1))
        | none => .error .deserializeFailed

/-- reader.rs read_one_varint. -/
def read_one_varint (enc : Option CipherSt) (stream : List Nat) :
    Except ReadErr (Option (Int × List Nat × Option CipherSt)) :=
  read_one_varint_go enc stream []

/-- reader.rs read_packet: read the frame-length VarInt (none propagates as
clean end of stream), read exactly that many bytes (a short stream is
UnexpectedEof from read_exact), decrypt them when encryption is enabled, when a
compression threshold is set decode the data-length VarInt and inflate a
non-zero payload (inflate is the external zlib decompressor; the decompress
buffer is sized to the announced data length, and output beyond it cannot be
produced by the bounded loop), finally decode the packet id VarInt; the
remainder of the frame is the body. Returns the Id (tagged with the reader's
state and direction), the body, the unread transport bytes and the cipher
state. -/
def read_packet (threshold : Option Int) (inflate : List Nat → List Nat) (enc : Option CipherSt)
    (state : PState) (direction : PacketDirection) (stream : List Nat) :
    Except ReadErr (Option (Id × List Nat × List Nat × Option CipherSt)) :=
  match read_one_varint enc stream with
  | .error e => .error e
  | .ok none => .ok none
  | .ok (some pl) =>
    let packet_len := pl.1
    let rest := pl.2.1
    let enc1 := pl.2.2
    let need := usize_of_i32 packet_len
    if rest.length < need then .error .unexpectedEof
    else
      let buf0 := rest.take need
      let remaining := rest.drop need
      let decRes : Option CipherSt × List Nat :=
        match enc1 with
        | none => (none, buf0)
        | some c =>
          let r := cipher_crypt c true buf0
          (some r.1, r.2)
      let bodyRes : Except ReadErr (List Nat) :=
        match threshold with
        | none => .ok decRes.2
        | some _ =>
          match varint_decode decRes.2 with
          | none => .error .deserializeFailed
          | some dl =>
            let data_len := u32_to_i32 (dl.1 % 4294967296)
            if data_len ≠ 0 then
              let needed := usize_of_i32 data_len
              let decompressed := inflate dl.2
              if decompressed.length ≤ needed then .ok decompressed
              else .error .inflateStuck
            else .ok dl.2
      match bodyRes with
      | .error e => .error e
      | .ok buf2 =>
        match varint_decode buf2 with
        | none => .error .deserializeFailed
        | some pidr =>
          .ok (some ({ state := state, direction := direction,
                       id := u32_to_i32 (pidr.1 % 4294967296) },
                     pidr.2, remaining, decRes.1))

/-! ### Byte-level facts (u8 semantics of the Nat bitwise operations) -/

/-- Masking with 0x7F is reduction mod 128 on byte values. -/
theorem and127_byte : ∀ b : Nat, b < 256 → b &&& 127 = b % 128 := by decide

/-- A byte below 0x80 has a clear continuation bit. -/
theorem and128_zero : ∀ b : Nat, b < 128 → b &&& 128 = 0 := by decide

/-- A byte at or above 0x80 (and below 0x100) has its continuation bit set. -/
theorem and128_ne : ∀ b : Nat, b < 256 → 128 ≤ b → b &&& 128 ≠ 0 := by decide

/-! ### Buffer splice lemmas -/

theorem ws_length (buf : List Nat) (i : Nat) (d : List Nat) (h : i + d.length ≤ buf.length) :
    (writeSlice buf i d).length = buf.length := by
  simp [writeSlice]; omega

theorem ws_drop (buf : List Nat) (i : Nat) (d : List Nat) (h : i ≤ buf.length) :
    (writeSlice buf i d).drop i = d ++ buf.drop (i + d.length) := by
  unfold writeSlice
  rw [List.append_assoc]
  exact List.drop_left' (by simp; omega)

theorem ws_take (buf : List Nat) (i j : Nat) (d : List Nat) (hj : j ≤ i) (hi : i ≤ buf.length) :
    (writeSlice buf i d).take j = buf.take j := by
  unfold writeSlice
  rw [List.append_assoc, List.take_append_of_le_length (by simp; omega), List.take_take,
    Nat.min_eq_left hj]

theorem sizeTo_nil (n : Nat) : sizeTo [] n = List.replicate n 0 := by
  unfold sizeTo get_sized_buf
  by_cases h : 0 < n
  · rw [if_pos (by simpa using h)]
    simp
  · have h0 : n = 0 := by omega
    subst h0
    rw [if_neg (by simp)]
    rfl

/-- The serialize-into-5-slot-then-right-shift idiom of writer.rs: after writing
d into the 5-byte slot starting at s and shifting it right by 5 - d.length,
everything from s + (5 - d.length) on reads as d followed by the original
buffer contents from s + 5 on. -/
theorem place_drop (buf : List Nat) (s : Nat) (d : List Nat)
    (hd : d.length ≤ 5) (hs : s + 5 ≤ buf.length) :
    (copy_data_rightwards (writeSlice buf s d) s (s + d.length) (5 - d.length)).drop
        (s + (5 - d.length)) = d ++ buf.drop (s + 5) := by
  unfold copy_data_rightwards
  by_cases h0 : 5 - d.length = 0
  · rw [if_pos h0, h0, Nat.add_zero]
    have h5 : d.length = 5 := by omega
    rw [ws_drop buf s d (by omega), h5]
  · rw [if_neg h0]
    have hWlen : (writeSlice buf s d).length = buf.length := ws_length _ _ _ (by omega)
    have hx : ((writeSlice buf s d).drop s).take (s + d.length - s) = d := by
      rw [ws_drop buf s d (by omega), Nat.add_sub_cancel_left]
      exact List.take_left' rfl
    rw [hx]
    rw [ws_drop (writeSlice buf s d) (s + (5 - d.length)) d (by omega)]
    have he : s + (5 - d.length) + d.length = s + 5 := by omega
    rw [he]
    congr 1
    unfold writeSlice
    rw [List.drop_append_eq_append_drop, List.drop_eq_nil_of_le (by simp; omega),
      List.nil_append, List.drop_drop]
    congr 1
    simp
    omega

theorem place_length (buf : List Nat) (s : Nat) (d : List Nat)
    (hd : d.length ≤ 5) (hs : s + 5 ≤ buf.length) :
    (copy_data_rightwards (writeSlice buf s d) s (s + d.length) (5 - d.length)).length =
      buf.length := by
  unfold copy_data_rightwards
  have hWlen : (writeSlice buf s d).length = buf.length := ws_length _ _ _ (by omega)
  by_cases h0 : 5 - d.length = 0
  · rw [if_pos h0]; exact hWlen
  · rw [if_neg h0]
    have hx : ((writeSlice buf s d).drop s).take (s + d.length - s) = d := by
      rw [ws_drop buf s d (by omega), Nat.add_sub_cancel_left]
      exact List.take_left' rfl
    rw [hx, ws_length _ _ _ (by omega)]
    exact hWlen

/-! ### VarInt codec lemmas -/

theorem encode_go_length_le : ∀ (fuel v : Nat), (varint_encode_u32_go fuel v).length ≤ fuel := by
  intro fuel
  induction fuel with
  | zero => intro v; simp [varint_encode_u32_go]
  | succ f ih =>
    intro v
    rw [varint_encode_u32_go]
    split
    · simp
    · simp only [List.length_cons]
      exact Nat.succ_le_succ (ih (v / 128))

theorem encode_go_length_pos (fuel v : Nat) (h : 1 ≤ fuel) :
    1 ≤ (varint_encode_u32_go fuel v).length := by
  cases fuel with
  | zero => omega
  | succ f =>
    rw [varint_encode_u32_go]
    split <;> simp

theorem encode_length_le5 (v : Int) : (varint_encode v).length ≤ 5 := by
  unfold varint_encode varint_encode_u32
  exact encode_go_length_le 5 _

theorem encode_length_pos (v : Int) : 1 ≤ (varint_encode v).length := by
  unfold varint_encode varint_encode_u32
  exact encode_go_length_pos 5 _ (by omega)

theorem encode_ofNat (n : Nat) (h : n < 4294967296) :
    varint_encode ((n : Nat) : Int) = varint_encode_u32 n := by
  have hx : (((n : Nat) : Int) % 4294967296).toNat = n := by omega
  unfold varint_encode
  rw [hx]

/-- Decoding an encoded u32 value from the front of a byte stream recovers the
value and leaves the trailing bytes untouched (generalized over the running
shift and accumulator of the decode loop and over the encoder fuel). -/
theorem decode_encode_go : ∀ (fuel v shift acc : Nat) (rest : List Nat),
    1 ≤ fuel → v < 128 ^ fuel → shift + fuel ≤ 5 →
    varint_decode_go (varint_encode_u32_go fuel v ++ rest) shift acc =
      some (acc + v * 128 ^ shift, rest) := by
  intro fuel
  induction fuel with
  | zero => intro v shift acc rest h1 _ _; omega
  | succ f ih =>
    intro v shift acc rest h1 hv h
    rw [varint_encode_u32_go]
    by_cases h0 : v / 128 = 0
    · have hvlt : v < 128 := by omega
      rw [if_pos h0]
      simp only [List.cons_append, List.nil_append, varint_decode_go]
      rw [if_neg (by omega)]
      rw [and127_byte _ (by omega), and128_zero _ (by omega)]
      have hmod : v % 128 % 128 = v := by omega
      simp [hmod]
    · rw [if_neg h0]
      have h128 : 128 ≤ v := by omega
      have hf1 : 1 ≤ f := by
        by_contra hc
        have hf0 : f = 0 := by omega
        subst hf0
        simp at hv
        omega
      have hdv : v / 128 < 128 ^ f := by
        rw [Nat.div_lt_iff_lt_mul (by omega)]
        calc v < 128 ^ (f + 1) := hv
        _ = 128 ^ f * 128 := by ring
      simp only [List.cons_append, varint_decode_go]
      rw [if_neg (by omega)]
      have hb : v % 128 + 128 < 256 := by
        have := Nat.mod_lt v (y := 128) (by omega)
        omega
      rw [and127_byte _ hb]
      rw [if_neg (and128_ne _ hb (by omega))]
      simp only [List.append_eq]
      rw [ih (v / 128) (shift + 1) (acc + (v % 128 + 128) % 128 * 128 ^ shift) rest hf1 hdv
        (by omega)]
      have hmm : (v % 128 + 128) % 128 = v % 128 := by omega
      have hdiv : v % 128 + 128 * (v / 128) = v := Nat.mod_add_div v 128
      rw [hmm]
      congr 2
      calc acc + v % 128 * 128 ^ shift + v / 128 * 128 ^ (shift + 1)
          = acc + (v % 128 + 128 * (v / 128)) * 128 ^ shift := by ring
      _ = acc + v * 128 ^ shift := by rw [hdiv]

theorem decode_encode (v : Nat) (rest : List Nat) (hv : v < 4294967296) :
    varint_decode (varint_encode_u32 v ++ rest) = some (v, rest) := by
  unfold varint_decode varint_encode_u32
  rw [decode_encode_go 5 v 0 0 rest (by omega)
    (by calc v < 4294967296 := hv
        _ < 128 ^ 5 := by norm_num)
    (by omega)]
  simp

theorem decode_encode_int (x : Int) (rest : List Nat)
    (h1 : -2147483648 ≤ x) (h2 : x < 2147483648) :
    varint_decode (varint_encode x ++ rest) = some ((x % 4294967296).toNat, rest) := by
  unfold varint_encode
  exact decode_encode _ rest (by omega)

/-- Round trip of the i32 to u32 to i32 reinterpretation. -/
theorem i32_roundtrip (x : Int) (h1 : -2147483648 ≤ x) (h2 : x < 2147483648) :
    u32_to_i32 ((x % 4294967296).toNat % 4294967296) = x := by
  unfold u32_to_i32
  split <;> omega

theorem u32_to_i32_ofNat (n : Nat) (h : n < 2147483648) : u32_to_i32 n = (n : Int) := by
  unfold u32_to_i32
  rw [if_pos (by omega)]

theorem usize_ofNat (n : Nat) (h : n < 9223372036854775808) :
    usize_of_i32 ((n : Nat) : Int) = n := by
  unfold usize_of_i32
  omega

/-- Streaming the bytes of an encoded u32 through the reader's one-byte-at-a-time
varint loop (plaintext mode): the loop consumes exactly the encoding, runs
mc_deserialize over the collected bytes and leaves the rest of the stream. -/
theorem read_go_encode : ∀ (fuel v w : Nat) (rest collected : List Nat),
    1 ≤ fuel → v < 128 ^ fuel →
    collected.length + fuel ≤ 5 →
    varint_decode (collected ++ varint_encode_u32_go fuel v) = some (w, []) →
    read_one_varint_go none (varint_encode_u32_go fuel v ++ rest) collected =
      .ok (some (u32_to_i32 (w % 4294967296), rest, none)) := by
  intro fuel
  induction fuel with
  | zero => intro v w rest collected h1 _ _ _; omega
  | succ f ih =>
    intro v w rest collected h1 hv hcl hw
    rw [varint_encode_u32_go] at hw ⊢
    by_cases h0 : v / 128 = 0
    · have hvlt : v < 128 := by omega
      rw [if_pos h0] at hw ⊢
      simp only [List.cons_append, List.nil_append, read_one_varint_go]
      rw [if_neg (by omega)]
      rw [if_neg (by simp [and128_zero (v % 128) (by omega)])]
      simp [hw]
    · rw [if_neg h0] at hw ⊢
      have h128 : 128 ≤ v := by omega
      have hf1 : 1 ≤ f := by
        by_contra hc
        have hf0 : f = 0 := by omega
        subst hf0
        simp at hv
        omega
      have hdv : v / 128 < 128 ^ f := by
        rw [Nat.div_lt_iff_lt_mul (by omega)]
        calc v < 128 ^ (f + 1) := hv
        _ = 128 ^ f * 128 := by ring
      simp only [List.cons_append, read_one_varint_go]
      rw [if_neg (by omega)]
      have hb : v % 128 + 128 < 256 := by
        have := Nat.mod_lt v (y := 128) (by omega)
        omega
      rw [if_pos (by simp [and128_ne _ hb (by omega)])]
      apply ih (v / 128) w rest (collected ++ [v % 128 + 128]) hf1 hdv (by simp; omega)
      rw [List.append_assoc]
      simpa using hw

/-- Feeding the canonical encoding of a u32 value to read_one_varint (plaintext
mode) yields exactly that value and the remaining stream. -/
theorem read_one_varint_encode (v : Nat) (rest : List Nat) (hv : v < 4294967296) :
    read_one_varint none (varint_encode_u32 v ++ rest) =
      .ok (some (u32_to_i32 v, rest, none)) := by
  unfold read_one_varint varint_encode_u32
  have hd : varint_decode (([] : List Nat) ++ varint_encode_u32_go 5 v) = some (v, []) := by
    simpa [varint_encode_u32] using decode_encode v [] hv
  have := read_go_encode 5 v v rest [] (by omega)
    (by calc v < 4294967296 := hv
        _ < 128 ^ 5 := by norm_num)
    (by simp) hd
  rw [this, Nat.mod_eq_of_lt hv]

/-! ### Writer emission lemmas -/

/-- emit_frame without encryption: the emitted slice is the frame-length VarInt
followed by the frame region buf[start_at .. end_at). -/
theorem emit_frame_spec (buf : List Nat) (start_at end_at : Nat)
    (h5 : 5 ≤ start_at) (hse : start_at ≤ end_at) (he : end_at ≤ buf.length) :
    emit_frame none buf start_at end_at =
      .ok (varint_encode ((end_at - start_at : Nat) : Int) ++
            (buf.drop start_at).take (end_at - start_at), none) := by
  have hL5 : (varint_encode ((end_at - start_at : Nat) : Int)).length ≤ 5 := encode_length_le5 _
  have hkey := place_drop buf (start_at - 5) (varint_encode ((end_at - start_at : Nat) : Int))
    hL5 (by omega)
  simp only [emit_frame]
  rw [hkey]
  have hs5 : start_at - 5 + 5 = start_at := by omega
  rw [hs5]
  have htk : end_at - (start_at - 5 + (5 - (varint_encode ((end_at - start_at : Nat) : Int)).length)) =
      (varint_encode ((end_at - start_at : Nat) : Int)).length + (end_at - start_at) := by omega
  rw [htk, List.take_append]

/-- Reading back a plain frame (no compression, no encryption): the frame-length
VarInt, the id VarInt and the body are consumed and the raw packet carries the
reader's state and direction, the decoded id and the body. -/
theorem read_packet_plain (st : PState) (dir : PacketDirection) (inflate : List Nat → List Nat)
    (idv : Int) (body : List Nat)
    (h1 : -2147483648 ≤ idv) (h2 : idv < 2147483648)
    (hb : body.length + 5 < 2147483648) :
    read_packet none inflate none st dir
        (varint_encode ((((varint_encode idv).length + body.length : Nat)) : Int) ++
          (varint_encode idv ++ body)) =
      .ok (some ({ state := st, direction := dir, id := idv }, body, [], none)) := by
  have hn5 : (varint_encode idv).length ≤ 5 := encode_length_le5 _
  have hn1 : 1 ≤ (varint_encode idv).length := encode_length_pos _
  set n := (varint_encode idv).length with hn
  have hflen : n + body.length < 4294967296 := by omega
  rw [encode_ofNat _ hflen]
  unfold read_packet
  rw [read_one_varint_encode _ _ hflen]
  dsimp only
  rw [u32_to_i32_ofNat _ (by omega), usize_ofNat _ (by omega)]
  have hlen : (varint_encode idv ++ body).length = n + body.length := by simp
  rw [if_neg (by rw [hlen]; omega)]
  rw [← hlen, List.take_length, List.drop_length]
  rw [decode_encode_int idv body h1 h2]
  dsimp only
  rw [i32_roundtrip idv h1 h2]

/-! ### Writer emission lemmas for each compression branch -/

theorem write_none_spec (dir : PacketDirection) (st : PState) (deflate : List Nat → List Nat)
    (pid : Id) (body : List Nat) (h1 : pid.direction = dir) (h2 : pid.state = st) :
    write_packet_in_buf dir st none deflate none pid body =
      .ok (varint_encode ((((varint_encode pid.id).length + body.length : Nat)) : Int) ++
            (varint_encode pid.id ++ body), none) := by
  have hn5 : (varint_encode pid.id).length ≤ 5 := encode_length_le5 _
  have hn1 : 1 ≤ (varint_encode pid.id).length := encode_length_pos _
  set n := (varint_encode pid.id).length with hn
  set B0 := writeSlice (sizeTo [] (15 + body.length)) 15 body with hB0
  have hB0len : B0.length = 15 + body.length := by
    rw [hB0, sizeTo_nil, ws_length _ _ _ (by simp)]
    simp
  have hB0drop : B0.drop 15 = body := by
    rw [hB0, sizeTo_nil, ws_drop _ _ _ (by simp)]
    simp
  set RAW := copy_data_rightwards (writeSlice B0 10 (varint_encode pid.id)) 10 (10 + n) (5 - n)
    with hRAW
  have hRAWlen : RAW.length = 15 + body.length := by
    rw [hRAW, place_length B0 10 _ hn5 (by omega), hB0len]
  have hplace : RAW.drop (10 + (5 - n)) = varint_encode pid.id ++ body := by
    rw [hRAW, place_drop B0 10 _ hn5 (by omega)]
    rw [show (10 : Nat) + 5 = 15 from rfl, hB0drop]
  have hidx : 15 - n = 10 + (5 - n) := by omega
  simp only [write_packet_in_buf, h1, h2, ne_eq, not_true_eq_false, if_false, ite_false,
    if_neg, reduceIte]
  rw [emit_frame_spec RAW (15 - n) (15 - n + (n + body.length)) (by omega) (by omega)
    (by rw [hRAWlen]; omega)]
  rw [Nat.add_sub_cancel_left, hidx, hplace]
  rw [List.take_of_length_le (by simp)]

theorem write_below_spec (dir : PacketDirection) (st : PState) (t : Int)
    (deflate : List Nat → List Nat) (pid : Id) (body : List Nat)
    (h1 : pid.direction = dir) (h2 : pid.state = st)
    (ht : (varint_encode pid.id).length + body.length < usize_of_i32 t) :
    write_packet_in_buf dir st (some t) deflate none pid body =
      .ok (varint_encode (((1 + ((varint_encode pid.id).length + body.length) : Nat)) : Int) ++
            (0 :: (varint_encode pid.id ++ body)), none) := by
  have hn5 : (varint_encode pid.id).length ≤ 5 := encode_length_le5 _
  have hn1 : 1 ≤ (varint_encode pid.id).length := encode_length_pos _
  set n := (varint_encode pid.id).length with hn
  set B0 := writeSlice (sizeTo [] (15 + body.length)) 15 body with hB0
  have hB0len : B0.length = 15 + body.length := by
    rw [hB0, sizeTo_nil, ws_length _ _ _ (by simp)]
    simp
  have hB0drop : B0.drop 15 = body := by
    rw [hB0, sizeTo_nil, ws_drop _ _ _ (by simp)]
    simp
  set RAW := copy_data_rightwards (writeSlice B0 10 (varint_encode pid.id)) 10 (10 + n) (5 - n)
    with hRAW
  have hRAWlen : RAW.length = 15 + body.length := by
    rw [hRAW, place_length B0 10 _ hn5 (by omega), hB0len]
  have hplace : RAW.drop (10 + (5 - n)) = varint_encode pid.id ++ body := by
    rw [hRAW, place_drop B0 10 _ hn5 (by omega)]
    rw [show (10 : Nat) + 5 = 15 from rfl, hB0drop]
  set B2 := writeSlice RAW (15 - n - 1) [0] with hB2
  have hB2len : B2.length = 15 + body.length := by
    rw [hB2, ws_length _ _ _ (by rw [hRAWlen]; simp; omega), hRAWlen]
  have hB2drop : B2.drop (15 - n - 1) = 0 :: (varint_encode pid.id ++ body) := by
    rw [hB2, ws_drop _ _ _ (by rw [hRAWlen]; omega)]
    rw [show (15 - n - 1 + [0].length : Nat) = 10 + (5 - n) from by simp; omega, hplace]
    rfl
  simp only [write_packet_in_buf, h1, h2, ne_eq, not_true_eq_false, if_false, ite_false,
    if_neg, reduceIte]
  rw [if_pos ht]
  rw [emit_frame_spec B2 (15 - n - 1) (15 - n + (n + body.length)) (by omega) (by omega)
    (by rw [hB2len]; omega)]
  rw [show (15 - n + (n + body.length) - (15 - n - 1) : Nat) = 1 + (n + body.length) from by omega]
  rw [hB2drop]
  rw [List.take_of_length_le (by simp; omega)]

theorem write_deflate_spec (dir : PacketDirection) (st : PState) (t : Int)
    (deflate : List Nat → List Nat) (pid : Id) (body : List Nat)
    (h1 : pid.direction = dir) (h2 : pid.state = st)
    (ht : ¬ ((varint_encode pid.id).length + body.length < usize_of_i32 t))
    (hfit : 15 + (deflate (varint_encode pid.id ++ body)).length ≤
        (varint_encode pid.id).length + body.length) :
    write_packet_in_buf dir st (some t) deflate none pid body =
      .ok (varint_encode
              ((((varint_encode ((((varint_encode pid.id).length + body.length : Nat)) : Int)).length +
                 (deflate (varint_encode pid.id ++ body)).length : Nat)) : Int) ++
            (varint_encode ((((varint_encode pid.id).length + body.length : Nat)) : Int) ++
              deflate (varint_encode pid.id ++ body)), none) := by
  have hn5 : (varint_encode pid.id).length ≤ 5 := encode_length_le5 _
  have hn1 : 1 ≤ (varint_encode pid.id).length := encode_length_pos _
  set n := (varint_encode pid.id).length with hn
  set B0 := writeSlice (sizeTo [] (15 + body.length)) 15 body with hB0
  have hB0len : B0.length = 15 + body.length := by
    rw [hB0, sizeTo_nil, ws_length _ _ _ (by simp)]
    simp
  have hB0drop : B0.drop 15 = body := by
    rw [hB0, sizeTo_nil, ws_drop _ _ _ (by simp)]
    simp
  set RAW := copy_data_rightwards (writeSlice B0 10 (varint_encode pid.id)) 10 (10 + n) (5 - n)
    with hRAW
  have hRAWlen : RAW.length = 15 + body.length := by
    rw [hRAW, place_length B0 10 _ hn5 (by omega), hB0len]
  have hplace : RAW.drop (10 + (5 - n)) = varint_encode pid.id ++ body := by
    rw [hRAW, place_drop B0 10 _ hn5 (by omega)]
    rw [show (10 : Nat) + 5 = 15 from rfl, hB0drop]
  have hidx : 15 - n = 10 + (5 - n) := by omega
  have hsrc : (RAW.drop (15 - n)).take (n + body.length) = varint_encode pid.id ++ body := by
    rw [hidx, hplace]
    exact List.take_of_length_le (by simp)
  simp only [write_packet_in_buf, h1, h2, ne_eq, not_true_eq_false, if_false, ite_false,
    if_neg, reduceIte]
  rw [if_neg ht, hsrc]
  set C := deflate (varint_encode pid.id ++ body) with hC
  have hsl : (varint_encode pid.id ++ body).length = n + body.length := by simp
  rw [hsl, sizeTo_nil, List.length_replicate]
  rw [if_pos hfit]
  set dlB := varint_encode (((n + body.length : Nat)) : Int) with hdlB
  have hd5 : dlB.length ≤ 5 := encode_length_le5 _
  have hd1 : 1 ≤ dlB.length := encode_length_pos _
  set CB1 := writeSlice (List.replicate (n + body.length) 0) 15 C with hCB1
  have hCB1len : CB1.length = n + body.length := by
    rw [hCB1, ws_length _ _ _ (by simp; omega)]
    simp
  have hCB1drop : CB1.drop 15 = C ++ List.replicate (n + body.length - (15 + C.length)) 0 := by
    rw [hCB1, ws_drop _ _ _ (by simp; omega)]
    simp
  set CB := copy_data_rightwards (writeSlice CB1 10 dlB) 10 (10 + dlB.length) (5 - dlB.length)
    with hCB
  have hCBlen : CB.length = n + body.length := by
    rw [hCB, place_length CB1 10 _ hd5 (by omega), hCB1len]
  have hCBdrop : CB.drop (10 + (5 - dlB.length)) =
      dlB ++ (C ++ List.replicate (n + body.length - (15 + C.length)) 0) := by
    rw [hCB, place_drop CB1 10 _ hd5 (by omega)]
    rw [show (10 : Nat) + 5 = 15 from rfl, hCB1drop]
  rw [emit_frame_spec CB (10 + (5 - dlB.length)) (15 + C.length) (by omega) (by omega)
    (by rw [hCBlen]; omega)]
  rw [show (15 + C.length - (10 + (5 - dlB.length)) : Nat) = dlB.length + C.length from by omega]
  rw [hCBdrop, List.take_append, List.take_append_of_le_length (le_refl _), List.take_length]

/-! ### CFB8 cipher lemmas -/

/-- Core CFB8 round trip: decrypting an encryption (same block function, same
initial iv register) restores the plaintext, and both runs leave the iv
register in the same state (both feed the ciphertext byte into the register). -/
theorem crypt_roundtrip (block : List Nat → List Nat) : ∀ (p iv : List Nat),
    (crypt block true iv (crypt block false iv p).2).2 = p ∧
    (crypt block true iv (crypt block false iv p).2).1 = (crypt block false iv p).1 := by
  intro p
  induction p with
  | nil => intro iv; simp [crypt]
  | cons d ds ih =>
    intro iv
    obtain ⟨ihA, ihB⟩ := ih (iv.drop 1 ++ [d ^^^ (block iv).headD 0])
    simp only [crypt, crypt_byte, Bool.false_eq_true, if_false, if_true, reduceIte]
    constructor
    · simp only [List.cons.injEq]
      constructor
      · rw [Nat.xor_assoc, Nat.xor_self, Nat.xor_zero]
      · exact ihA
    · exact ihB

/-! ### Reader loop lemmas -/

/-- A stream that ends while every delivered byte still has its continuation bit
set makes the read_one_varint loop report a clean end of stream, provided fewer
than five bytes were delivered in total. -/
theorem read_go_eof : ∀ (bs collected : List Nat),
    bs.length + collected.length ≤ 4 → (∀ b ∈ bs, b &&& 128 ≠ 0) →
    read_one_varint_go none bs collected = .ok none := by
  intro bs
  induction bs with
  | nil =>
    intro collected h _
    rw [read_one_varint_go, if_neg (by simp at h; omega)]
  | cons b tl ih =>
    intro collected h hall
    rw [read_one_varint_go, if_neg (by simp at h; omega)]
    dsimp only
    rw [if_pos (hall b (List.mem_cons_self b tl))]
    apply ih
    · simp at h ⊢
      omega
    · intro x hx
      exact hall x (List.mem_cons_of_mem _ hx)

/-- One continuation step of the read_one_varint loop in plaintext mode. -/
theorem read_go_cont (b : Nat) (stream collected : List Nat)
    (hlen : collected.length < 5) (hb : b &&& 128 ≠ 0) :
    read_one_varint_go none (b :: stream) collected =
      read_one_varint_go none stream (collected ++ [b]) := by
  rw [read_one_varint_go, if_neg (by omega)]
  dsimp only
  rw [if_pos hb]

/-- The loop errors out with VarIntOverflow as soon as five bytes have been
collected, before looking at the stream again. -/
theorem read_go_full (stream collected : List Nat) (hlen : collected.length = 5) :
    read_one_varint_go none stream collected = .error .varIntOverflow := by
  rw [read_one_varint_go.eq_def, if_pos hlen]

/-- A frame-length VarInt that announces more bytes than the stream still holds
makes read_packet fail with UnexpectedEof (the read_exact of the frame body). -/
theorem read_short_body (thr : Option Int) (inflate : List Nat → List Nat)
    (st : PState) (dir : PacketDirection) (v : Nat) (rest : List Nat)
    (hv : v < 2147483648) (hshort : rest.length < v) :
    read_packet thr inflate none st dir (varint_encode_u32 v ++ rest) =
      .error .unexpectedEof := by
  unfold read_packet
  rw [read_one_varint_encode _ _ (by omega)]
  dsimp only
  rw [u32_to_i32_ofNat _ hv, usize_ofNat _ (by omega)]
  rw [if_pos hshort]

/-! ### Claim theorems -/

/-- C1: with no compression threshold and no encryption on either side, writing
any packet and then reading the emitted bytes back with a reader in the same
state and the matching direction yields a raw packet whose id and body equal
the input's; in particular for state Play, direction ServerBound, id 0x2A and
body 01 02 03 the emitted bytes are exactly 04 2A 01 02 03. -/
theorem c1_frame_roundtrip_plain (st : PState) (dir : PacketDirection) (idv : Int)
    (body : List Nat) (deflate inflate : List Nat → List Nat)
    (hlo : -2147483648 ≤ idv) (hhi : idv < 2147483648)
    (hb : body.length + 5 < 2147483648) :
    (write_packet_in_buf dir st none deflate none ⟨st, dir, idv⟩ body =
        .ok (varint_encode ((((varint_encode idv).length + body.length : Nat)) : Int) ++
              (varint_encode idv ++ body), none) ∧
      read_packet none inflate none st dir
          (varint_encode ((((varint_encode idv).length + body.length : Nat)) : Int) ++
            (varint_encode idv ++ body)) =
        .ok (some (⟨st, dir, idv⟩, body, [], none))) ∧
    write_packet_in_buf .serverBound .play none deflate none ⟨.play, .serverBound, 42⟩ [1, 2, 3] =
      .ok ([4, 42, 1, 2, 3], none) := by
  refine ⟨⟨?_, ?_⟩, rfl⟩
  · exact write_none_spec dir st deflate ⟨st, dir, idv⟩ body rfl rfl
  · exact read_packet_plain st dir inflate idv body hlo hhi hb

theorem c1_witness :
    ((-2147483648 : Int) ≤ 42 ∧ (42 : Int) < 2147483648 ∧
      ([1, 2, 3] : List Nat).length + 5 < 2147483648) ∧
    read_packet none (fun x => x) none .play .serverBound [4, 42, 1, 2, 3] =
      .ok (some (⟨.play, .serverBound, 42⟩, [1, 2, 3], [], none)) := by
  refine ⟨⟨by decide, by decide, by decide⟩, ?_⟩
  exact (c1_frame_roundtrip_plain .play .serverBound 42 [1, 2, 3] (fun x => x) (fun x => x)
    (by decide) (by decide) (by decide)).1.2

/-- C2 counterexample: after one frame-length byte 0x80 (continuation bit set)
the stream ends; read_packet returns Ok(None) — the clean end-of-stream
result — and not the UnexpectedEof error the claim requires for an EOF in the
middle of the frame-length VarInt. -/
theorem c2_counterexample :
    read_packet none (fun x => x) none .handshaking .serverBound [128] = .ok none ∧
    read_packet none (fun x => x) none .handshaking .serverBound [128] ≠
      .error .unexpectedEof := by
  constructor
  · rfl
  · intro h
    rw [show read_packet none (fun x => x) none PState.handshaking PacketDirection.serverBound
        [128] = .ok none from rfl] at h
    exact Except.noConfusion h

/-- C2 (amended): read_packet returns None whenever the stream ends during the
frame-length VarInt — at the very first byte or after up to four continuation
bytes (a zero-byte read exits the loop with None at any position) — and
UnexpectedEof exactly when the frame-length VarInt completes but the stream
ends before the announced number of body bytes arrive. -/
theorem c2_eof_behavior (thr : Option Int) (inflate : List Nat → List Nat)
    (st : PState) (dir : PacketDirection) :
    (∀ bs : List Nat, bs.length ≤ 4 → (∀ b ∈ bs, b &&& 128 ≠ 0) →
        read_packet thr inflate none st dir bs = .ok none) ∧
    (∀ (v : Nat) (rest : List Nat), v < 2147483648 → rest.length < v →
        read_packet thr inflate none st dir (varint_encode_u32 v ++ rest) =
          .error .unexpectedEof) := by
  constructor
  · intro bs hlen hall
    unfold read_packet read_one_varint
    rw [read_go_eof bs [] (by simpa using hlen) hall]
  · intro v rest hv hshort
    exact read_short_body thr inflate st dir v rest hv hshort

theorem c2_witness :
    (([128, 128] : List Nat).length ≤ 4 ∧ ∀ b ∈ ([128, 128] : List Nat), b &&& 128 ≠ 0) ∧
    read_packet none (fun x => x) none .status .clientBound [128, 128] = .ok none := by
  refine ⟨⟨by decide, by decide⟩, ?_⟩
  exact (c2_eof_behavior none (fun x => x) .status .clientBound).1 [128, 128]
    (by decide) (by decide)

/-- C3: a stream whose first five bytes all carry the continuation bit makes
read_packet fail with VarIntOverflow regardless of anything after those five
bytes: the error fires inside the frame-length loop, before any body byte is
read. -/
theorem c3_varint_overflow (thr : Option Int) (inflate : List Nat → List Nat)
    (st : PState) (dir : PacketDirection) (b0 b1 b2 b3 b4 : Nat) (rest : List Nat)
    (h0 : b0 &&& 128 ≠ 0) (h1 : b1 &&& 128 ≠ 0) (h2 : b2 &&& 128 ≠ 0)
    (h3 : b3 &&& 128 ≠ 0) (h4 : b4 &&& 128 ≠ 0) :
    read_packet thr inflate none st dir (b0 :: b1 :: b2 :: b3 :: b4 :: rest) =
      .error .varIntOverflow := by
  unfold read_packet read_one_varint
  rw [read_go_cont _ _ _ (by simp) h0, read_go_cont _ _ _ (by simp) h1,
    read_go_cont _ _ _ (by simp) h2, read_go_cont _ _ _ (by simp) h3,
    read_go_cont _ _ _ (by simp) h4, read_go_full _ _ (by simp)]

theorem c3_witness :
    ((128 : Nat) &&& 128 ≠ 0) ∧
    read_packet none (fun x => x) none .login .serverBound [128, 128, 128, 128, 128, 9] =
      .error .varIntOverflow := by
  refine ⟨by decide, ?_⟩
  exact c3_varint_overflow none (fun x => x) .login .serverBound 128 128 128 128 128 [9]
    (by decide) (by decide) (by decide) (by decide) (by decide)

/-- C4: from any 16-byte key and 16-byte iv, cipher construction succeeds, and
encrypting a plaintext with a fresh cipher then decrypting the result with a
second fresh cipher built from the same key and iv restores the plaintext
exactly, with both ciphers' iv registers identical afterwards. -/
theorem c4_cfb8_roundtrip (aes : List Nat → List Nat → List Nat) (key iv p : List Nat)
    (hkey : key.length = 16) (hiv : iv.length = 16) :
    ∃ c : CipherSt, minecraftCipher_new aes key iv = .ok c ∧
      (cipher_crypt c true (cipher_crypt c false p).2).2 = p ∧
      (cipher_crypt c true (cipher_crypt c false p).2).1.iv =
        (cipher_crypt c false p).1.iv := by
  refine ⟨{ block := aes key, iv := iv }, ?_, ?_, ?_⟩
  · unfold minecraftCipher_new
    rw [if_neg (by omega), if_neg (by omega)]
  · simpa [cipher_crypt] using (crypt_roundtrip (aes key) p iv).1
  · simpa [cipher_crypt] using (crypt_roundtrip (aes key) p iv).2

theorem c4_witness :
    ((List.replicate 16 0 : List Nat).length = 16) ∧
    ∃ c : CipherSt,
      minecraftCipher_new (fun _ b => b) (List.replicate 16 0) (List.replicate 16 0) = .ok c ∧
      (cipher_crypt c true (cipher_crypt c false [1, 2, 3]).2).2 = [1, 2, 3] ∧
      (cipher_crypt c true (cipher_crypt c false [1, 2, 3]).2).1.iv =
        (cipher_crypt c false [1, 2, 3]).1.iv :=
  ⟨by decide, c4_cfb8_roundtrip (fun _ b => b) _ _ [1, 2, 3] (by decide) (by decide)⟩

/-- C5: with a non-negative i32 compression threshold T configured, the frame
emitted for a packet with id-plus-body size s carries a data-length prefix of
exactly one 0x00 byte when s < T, and when s ≥ T it carries the data-length
VarInt of s (s is never zero, so the prefix decodes to 0 iff s < T) followed
by deflate(id || body), which zlib-inflates back to exactly id || body; in
particular for T = 256, id 0x00 and body AA BB the emitted bytes are exactly
04 00 00 AA BB. -/
theorem c5_compression_threshold_framing (st : PState) (dir : PacketDirection) (idv : Int)
    (body : List Nat) (t : Int) (deflate inflate : List Nat → List Nat)
    (ht0 : 0 ≤ t) (ht1 : t < 2147483648) :
    ((varint_encode idv).length + body.length < t.toNat →
        write_packet_in_buf dir st (some t) deflate none ⟨st, dir, idv⟩ body =
          .ok (varint_encode (((1 + ((varint_encode idv).length + body.length) : Nat)) : Int) ++
                (0 :: (varint_encode idv ++ body)), none)) ∧
    (t.toNat ≤ (varint_encode idv).length + body.length →
      15 + (deflate (varint_encode idv ++ body)).length ≤
          (varint_encode idv).length + body.length →
      inflate (deflate (varint_encode idv ++ body)) = varint_encode idv ++ body →
        write_packet_in_buf dir st (some t) deflate none ⟨st, dir, idv⟩ body =
          .ok (varint_encode
                  ((((varint_encode ((((varint_encode idv).length + body.length : Nat)) : Int)).length +
                     (deflate (varint_encode idv ++ body)).length : Nat)) : Int) ++
                (varint_encode ((((varint_encode idv).length + body.length : Nat)) : Int) ++
                  deflate (varint_encode idv ++ body)), none) ∧
        inflate (deflate (varint_encode idv ++ body)) = varint_encode idv ++ body ∧
        0 < (varint_encode idv).length + body.length) ∧
    write_packet_in_buf .serverBound .play (some 256) deflate none ⟨.play, .serverBound, 0⟩
        [170, 187] = .ok ([4, 0, 0, 170, 187], none) := by
  have hus : usize_of_i32 t = t.toNat := by
    unfold usize_of_i32
    omega
  refine ⟨?_, ?_, rfl⟩
  · intro hbelow
    exact write_below_spec dir st t deflate ⟨st, dir, idv⟩ body rfl rfl
      (by rw [hus]; exact hbelow)
  · intro habove hfit hrt
    refine ⟨?_, hrt, ?_⟩
    · exact write_deflate_spec dir st t deflate ⟨st, dir, idv⟩ body rfl rfl
        (by dsimp only; rw [hus]; omega) hfit
    · have := encode_length_pos idv
      omega

theorem c5_witness :
    write_packet_in_buf .clientBound .login (some 0) (fun _ => [0]) none
        ⟨.login, .clientBound, 0⟩ (List.replicate 20 7) = .ok ([2, 21, 0], none) ∧
    (fun _ : List Nat => 0 :: List.replicate 20 7)
        ((fun _ : List Nat => ([0] : List Nat)) (varint_encode 0 ++ List.replicate 20 7)) =
      varint_encode 0 ++ List.replicate 20 7 := by
  have h := (c5_compression_threshold_framing .login .clientBound 0 (List.replicate 20 7) 0
    (fun _ => [0]) (fun _ => 0 :: List.replicate 20 7) (by decide) (by decide)).2.1
    (by decide) (by decide) (by decide)
  exact ⟨h.1, h.2.1⟩

/-- C6: the resize in the deflate loop's BufError arm is a no-op. The loop
writes compressed output inside compress_buf from offset 15 onward, so
total_out never exceeds the buffer's length; get_sized_buf asked for at most
the current length returns the buffer unchanged (whatever capacity the
allocator would offer), so the retried compress call sees the same exhausted
output window and the loop cannot make the progress the claim describes. -/
theorem c6_bufErr_grow_noop (compress_buf : List Nat) (total_out cap : Nat)
    (h : total_out ≤ compress_buf.length) :
    get_sized_buf compress_buf total_out cap =
      (compress_buf, compress_buf.take total_out) := by
  unfold get_sized_buf
  rw [if_neg (by omega)]

theorem c6_witness :
    (2 : Nat) ≤ ([5, 6, 7] : List Nat).length ∧
    get_sized_buf [5, 6, 7] 2 100 = ([5, 6, 7], [5, 6]) :=
  ⟨by decide, c6_bufErr_grow_noop [5, 6, 7] 2 100 (by decide)⟩

/-- C7: a packet id whose direction differs from the writer's is rejected with
DirectionMismatch, and one whose direction matches but whose state differs is
rejected with StateMismatch; in both cases nothing is appended to the
transport sink. -/
theorem c7_direction_state_guard (dir : PacketDirection) (st : PState) (thr : Option Int)
    (deflate : List Nat → List Nat) (enc : Option CipherSt) (pid : Id) (body sink : List Nat) :
    (pid.direction ≠ dir →
        write_packet_to_sink dir st thr deflate enc pid body sink =
          (.error .directionMismatch, sink)) ∧
    (pid.direction = dir → pid.state ≠ st →
        write_packet_to_sink dir st thr deflate enc pid body sink =
          (.error .stateMismatch, sink)) := by
  constructor
  · intro h
    unfold write_packet_to_sink write_packet_in_buf
    rw [if_pos h]
  · intro hd hs
    unfold write_packet_to_sink write_packet_in_buf
    rw [if_neg (by simp [hd]), if_pos hs]

theorem c7_witness :
    ((⟨.play, .serverBound, 1⟩ : Id).direction ≠ PacketDirection.clientBound) ∧
    write_packet_to_sink .clientBound .play none (fun x => x) none ⟨.play, .serverBound, 1⟩
        [1] [9] = (.error .directionMismatch, [9]) := by
  refine ⟨by decide, ?_⟩
  exact (c7_direction_state_guard .clientBound .play none (fun x => x) none
    ⟨.play, .serverBound, 1⟩ [1] [9]).1 (by decide)

/-- C8: calling enable_encryption on a bridge half whose cipher is already
installed fails with DoubleEnableEncryption and leaves the installed cipher
state (key schedule and iv register) untouched, for every key and iv. -/
theorem c8_double_enable_encryption (c : CipherSt) (aes : List Nat → List Nat → List Nat)
    (key iv : List Nat) :
    enable_encryption (some c) aes key iv = (.error .doubleEnableEncryption, some c) := rfl

/-- C9: get_sized_buf returns a slice of length exactly needed; every newly
exposed byte beyond the old length is zero after a grow; and the stored
buffer's length never decreases. cap is the capacity the Rust allocator grants
reserve, always at least needed. -/
theorem c9_get_sized_buf_spec (raw_buf : List Nat) (needed cap : Nat) (hcap : needed ≤ cap) :
    (get_sized_buf raw_buf needed cap).2.length = needed ∧
    raw_buf.length ≤ (get_sized_buf raw_buf needed cap).1.length ∧
    (∀ i, raw_buf.length ≤ i → i < (get_sized_buf raw_buf needed cap).1.length →
      (get_sized_buf raw_buf needed cap).1.getD i 0 = 0) := by
  unfold get_sized_buf
  by_cases hg : raw_buf.length < needed
  · rw [if_pos hg]
    refine ⟨?_, ?_, ?_⟩
    · simp
      omega
    · simp
    · intro i hi1 hi2
      simp only [List.length_append, List.length_replicate] at hi2
      rw [List.getD_eq_getElem?_getD, List.getElem?_append_right hi1, List.getElem?_replicate]
      rw [if_pos (by omega)]
      rfl
  · rw [if_neg hg]
    refine ⟨?_, le_refl _, ?_⟩
    · simp
      omega
    · intro i hi1 hi2
      exact absurd hi2 (by simp; omega)

theorem c9_witness :
    (4 : Nat) ≤ 6 ∧ (get_sized_buf [1, 2] 4 6).2.length = 4 ∧
      (get_sized_buf [1, 2] 4 6).1.getD 3 0 = 0 :=
  ⟨by decide, (c9_get_sized_buf_spec [1, 2] 4 6 (by decide)).1,
    (c9_get_sized_buf_spec [1, 2] 4 6 (by decide)).2.2 3 (by decide) (by decide)⟩

/-- C10: a negative compression threshold is cast to usize in the writer's
below-threshold comparison, so every packet of any realistic size tests below
the threshold and is emitted uncompressed behind a single 0x00 data-length
byte, independently of the deflate function — no packet is ever compressed. -/
theorem c10_negative_threshold_uncompressed (st : PState) (dir : PacketDirection) (idv : Int)
    (body : List Nat) (t : Int) (deflate : List Nat → List Nat)
    (ht0 : t < 0) (ht1 : -2147483648 ≤ t)
    (hb : body.length + 5 ≤ 9223372036854775808) :
    write_packet_in_buf dir st (some t) deflate none ⟨st, dir, idv⟩ body =
      .ok (varint_encode (((1 + ((varint_encode idv).length + body.length) : Nat)) : Int) ++
            (0 :: (varint_encode idv ++ body)), none) := by
  have hn5 : (varint_encode idv).length ≤ 5 := encode_length_le5 _
  apply write_below_spec dir st t deflate ⟨st, dir, idv⟩ body rfl rfl
  dsimp only
  unfold usize_of_i32
  omega

theorem c10_witness :
    ((-1 : Int) < 0 ∧ (-2147483648 : Int) ≤ -1 ∧
      ([1] : List Nat).length + 5 ≤ 9223372036854775808) ∧
    write_packet_in_buf .serverBound .status (some (-1)) (fun x => x) none
        ⟨.status, .serverBound, 3⟩ [1] = .ok ([3, 0, 3, 1], none) := by
  refine ⟨⟨by decide, by decide, by decide⟩, ?_⟩
  exact c10_negative_threshold_uncompressed .status .serverBound 3 [1] (-1) (fun x => x)
    (by decide) (by decide) (by decide)

end Mctokio
